import Mathlib

/-!
# Snail Mail Notifier (receiver): melody tables and playback record

Shallow embedding of `Software/Arduino/SMN_Receiver/sound.h` and
`Software/Arduino/SMN_Receiver/sound.cpp`.

* `sound.h` declares `struct note`, `struct melody`, `enum operation` and
  `struct melodyPlay`.
* `sound.cpp` defines the constant tables `newMailNotes`, `buttonPushNotes`
  and the constants `melodyNewMail`, `melodyButtonPush`.

Fixed-width machine integers are natural numbers (or integers) reduced
explicitly modulo `2 ^ w`.
-/

namespace SnailMail

/-! ## Data model (sound.h) -/

/-- Pitch identifiers appearing in `sound.cpp`. Their numeric values are
preprocessor constants of `pitch.h`, which is not among the sources, so the
identifiers are kept symbolic. -/
inductive Pitch
  | G2 | A2b | B2b
  | C3 | D3 | E3b | E3 | F3 | G3 | A3b | B3b
  | C4 | D4 | E4b | E4 | F4 | G4 | A4b | B4b
  | C5 | B5
  | E6
  deriving DecidableEq

/-- Number of values of a `uint8_t`. -/
def UINT8_MOD : Nat := 2 ^ 8

/-- Number of values of a `uint16_t`. -/
def UINT16_MOD : Nat := 2 ^ 16

/-- Conversion of an integer to `int8_t` (two's complement wrap-around). -/
def toInt8 (z : Int) : Int := (z + 128) % 256 - 128

/-- The record `struct note { uint16_t pitch; uint16_t duration; }`. -/
structure note where
  pitch : Pitch
  duration : Nat
  deriving DecidableEq

/-- Brace initialiser `{p, d}` of a `note`: the duration literal is converted
to `uint16_t`. -/
def mkNote (p : Pitch) (d : Nat) : note := ⟨p, d % UINT16_MOD⟩

/-- Value stored in the `uint16_t pitch` member, given the table of
`pitch.h` constants. -/
def note.pitchValue (freq : Pitch → Nat) (n : note) : Nat := freq n.pitch % UINT16_MOD

/-- The record `struct melody { const note * notes; uint8_t length; }`; the
pointer is modelled by the table it points to. -/
structure melody where
  notes : List note
  length : Nat
  deriving DecidableEq

/-- The enumeration `typedef enum {STOP, PLAY} operation`. -/
inductive operation
  | STOP | PLAY
  deriving DecidableEq

/-- The record `struct melodyPlay`; `reference` is a nullable pointer to a
melody, the `uint16_t` members are naturals, `noteCounter` is an `int8_t`. -/
structure melodyPlay where
  reference : Option melody
  action : operation
  calls : Nat
  pause : Nat
  nextCall : Nat
  noteCounter : Int

/-- C types of the members declared in `sound.h`. -/
inductive CType
  | uint8 | uint16 | int8 | constNotePtr | melodyPtr | operationEnum
  deriving DecidableEq

/-- Member declarations of `struct melodyPlay`, in declaration order. -/
def melodyPlayFields : List (String × CType) :=
  [ ("reference", CType.melodyPtr),
    ("action", CType.operationEnum),
    ("calls", CType.uint16),
    ("pause", CType.uint16),
    ("nextCall", CType.uint16),
    ("noteCounter", CType.int8) ]

/-- The members of a `melodyPlay` record, in declaration order. -/
def melodyPlay.toTuple (s : melodyPlay) :
    Option melody × operation × Nat × Nat × Nat × Int :=
  (s.reference, s.action, s.calls, s.pause, s.nextCall, s.noteCounter)

/-- Fields of the playback state as section 3 of the specification describes
them: a melody reference, the action enumeration, and the counters for calls
made, pause duration, time of next scheduled call and index of current note. -/
def specPlaybackFields : List String :=
  ["reference", "action", "calls", "pause", "nextCall", "noteCounter"]

/-! ## Melody tables (sound.cpp) -/

/-- Size `sizeof(note)` of a note: two `uint16_t` members of two bytes each. -/
def sizeof_note : Nat := 2 + 2

/-- Size `sizeof(table)` of a table of notes. -/
def sizeofTable (xs : List note) : Nat := xs.length * sizeof_note

/-- The table `newMailNotes`. -/
def newMailNotes : List note :=
  [ mkNote .G2 100,
    mkNote .C3 100,
    mkNote .E3 100,
    mkNote .G3 100,
    mkNote .C4 100,
    mkNote .E4 100,
    mkNote .G4 300,
    mkNote .E4 300,
    mkNote .A2b 100,
    mkNote .C3 100,
    mkNote .E3b 100,
    mkNote .A3b 100,
    mkNote .C4 100,
    mkNote .E4b 100,
    mkNote .A4b 300,
    mkNote .E4b 300,
    mkNote .B2b 100,
    mkNote .D3 100,
    mkNote .F3 100,
    mkNote .B3b 100,
    mkNote .D4 100,
    mkNote .F4 100,
    mkNote .B4b 300,
    mkNote .B4b 100,
    mkNote .B4b 100,
    mkNote .B4b 100,
    mkNote .C5 600 ]

/-- The constant `melodyNewMail`; the count is stored in a `uint8_t`. -/
def melodyNewMail : melody :=
  ⟨newMailNotes, (sizeofTable newMailNotes / sizeof_note) % UINT8_MOD⟩

/-- The table `buttonPushNotes`. -/
def buttonPushNotes : List note :=
  [ mkNote .B5 100,
    mkNote .E6 200 ]

/-- The constant `melodyButtonPush`; the count is stored in a `uint8_t`. -/
def melodyButtonPush : melody :=
  ⟨buttonPushNotes, (sizeofTable buttonPushNotes / sizeof_note) % UINT8_MOD⟩

/-! ## Duration totals -/

/-- Exact sum of the durations of a list of notes. -/
def totalDuration (xs : List note) : Nat := (xs.map note.duration).sum

/-- Sum of the durations accumulated note by note in a `uint16_t` counter
starting from `acc`. -/
def accumulate16 (acc : Nat) (xs : List note) : Nat :=
  xs.foldl (fun a n => (a + n.duration) % UINT16_MOD) acc

/-! ## Auxiliary lemmas -/

theorem totalDuration_cons (n : note) (xs : List note) :
    totalDuration (n :: xs) = n.duration + totalDuration xs := by
  simp [totalDuration]

theorem totalDuration_take_le (xs : List note) (k : Nat) :
    totalDuration (xs.take k) ≤ totalDuration xs := by
  induction xs generalizing k with
  | nil => simp [totalDuration]
  | cons n xs ih =>
    cases k with
    | zero => simp [totalDuration]
    | succ k =>
      rw [List.take_succ_cons, totalDuration_cons, totalDuration_cons]
      exact Nat.add_le_add_left (ih k) _

theorem accumulate16_eq (xs : List note) (acc : Nat)
    (h : acc + totalDuration xs < UINT16_MOD) :
    accumulate16 acc xs = acc + totalDuration xs := by
  induction xs generalizing acc with
  | nil => simp [accumulate16, totalDuration]
  | cons n xs ih =>
    rw [totalDuration_cons] at h
    have hlt : acc + n.duration < UINT16_MOD := by omega
    have hstep : accumulate16 acc (n :: xs) = accumulate16 (acc + n.duration) xs := by
      simp [accumulate16, Nat.mod_eq_of_lt hlt]
    rw [hstep, ih (acc + n.duration) (by omega), totalDuration_cons]
    omega

theorem totalDuration_newMail : totalDuration newMailNotes = 4200 := by decide

theorem totalDuration_buttonPush : totalDuration buttonPushNotes = 300 := by decide

/-! ## Note tables -/

/-- C1: the note sequence of `melodyNewMail`, read in order from index 0, is
exactly the 27-element table of the specification, pitch identifiers compared
symbolically and position by position. -/
theorem melodyNewMail_notes_eq :
    melodyNewMail.notes =
      [ ⟨.G2, 100⟩, ⟨.C3, 100⟩, ⟨.E3, 100⟩, ⟨.G3, 100⟩, ⟨.C4, 100⟩, ⟨.E4, 100⟩,
        ⟨.G4, 300⟩, ⟨.E4, 300⟩,
        ⟨.A2b, 100⟩, ⟨.C3, 100⟩, ⟨.E3b, 100⟩, ⟨.A3b, 100⟩, ⟨.C4, 100⟩, ⟨.E4b, 100⟩,
        ⟨.A4b, 300⟩, ⟨.E4b, 300⟩,
        ⟨.B2b, 100⟩, ⟨.D3, 100⟩, ⟨.F3, 100⟩, ⟨.B3b, 100⟩, ⟨.D4, 100⟩, ⟨.F4, 100⟩,
        ⟨.B4b, 300⟩, ⟨.B4b, 100⟩, ⟨.B4b, 100⟩, ⟨.B4b, 100⟩, ⟨.C5, 600⟩ ] := by
  decide

/-- C2: the note sequence of `melodyButtonPush`, read in order from index 0,
is exactly the 2-element table (B5,100) (E6,200). -/
theorem melodyButtonPush_notes_eq :
    melodyButtonPush.notes = [ ⟨.B5, 100⟩, ⟨.E6, 200⟩ ] := by
  decide

/-- C3: the length member of `melodyNewMail` is 27 and that of
`melodyButtonPush` is 2; each is the quotient of the table size by the note
size reduced to a `uint8_t`, and each equals the number of entries of the
table the melody points to. -/
theorem melody_length_eq :
    (melodyNewMail.length = 27 ∧ melodyButtonPush.length = 2) ∧
    (melodyNewMail.length = (sizeofTable newMailNotes / sizeof_note) % 2 ^ 8 ∧
      melodyButtonPush.length = (sizeofTable buttonPushNotes / sizeof_note) % 2 ^ 8) ∧
    (melodyNewMail.length = melodyNewMail.notes.length ∧
      melodyButtonPush.length = melodyButtonPush.notes.length) := by
  decide

/-- C4: every note of `melodyNewMail` and every note of `melodyButtonPush`
has a strictly positive duration. -/
theorem duration_pos (n : note)
    (h : n ∈ melodyNewMail.notes ∨ n ∈ melodyButtonPush.notes) : 0 < n.duration := by
  have hall : ∀ x ∈ melodyNewMail.notes ++ melodyButtonPush.notes, 0 < x.duration := by
    decide
  exact hall n (List.mem_append.mpr h)

/-- Instance of C4 at the last note of the new-mail melody. -/
theorem duration_pos_witness :
    ((mkNote .C5 600) ∈ melodyNewMail.notes ∨ (mkNote .C5 600) ∈ melodyButtonPush.notes) ∧
      0 < (mkNote .C5 600).duration :=
  ⟨Or.inl (by decide), duration_pos (mkNote .C5 600) (Or.inl (by decide))⟩

/-! ## Playback record -/

/-- C5 as stated fails: `struct melodyPlay` does not declare five members. -/
theorem melodyPlayFields_length_ne_five : melodyPlayFields.length ≠ 5 := by
  decide

/-- C5 amended: `struct melodyPlay` declares exactly six members, namely
reference, action, calls, pause, nextCall and noteCounter in this order; these
are the fields section 3 of the specification describes, and a record is
determined by, and can take any combination of, these six members. -/
theorem melodyPlayFields_six :
    melodyPlayFields.length = 6 ∧
    melodyPlayFields.map Prod.fst = specPlaybackFields ∧
    (melodyPlayFields.map Prod.fst).Nodup ∧
    Function.Bijective melodyPlay.toTuple := by
  refine ⟨rfl, rfl, by decide, ?_, ?_⟩
  · rintro ⟨r, a, c, p, t, k⟩ ⟨r2, a2, c2, p2, t2, k2⟩ h
    simp only [melodyPlay.toTuple, Prod.mk.injEq] at h
    obtain ⟨h1, h2, h3, h4, h5, h6⟩ := h
    subst h1 h2 h3 h4 h5 h6
    rfl
  · rintro ⟨r, a, c, p, t, k⟩
    exact ⟨⟨r, a, c, p, t, k⟩, rfl⟩

/-- C6: the action member of the playback state has the enumeration type
`operation`, whose values are exactly STOP and PLAY: every value is one of
the two, the two are distinct, and the member is declared with that type. -/
theorem operation_values :
    (∀ o : operation, o = operation.STOP ∨ o = operation.PLAY) ∧
    operation.STOP ≠ operation.PLAY ∧
    (∀ s : melodyPlay, s.action = operation.STOP ∨ s.action = operation.PLAY) ∧
    melodyPlayFields.lookup "action" = some CType.operationEnum := by
  refine ⟨?_, by decide, ?_, by decide⟩
  · intro o
    cases o
    · exact Or.inl rfl
    · exact Or.inr rfl
  · intro s
    cases s.action
    · exact Or.inl rfl
    · exact Or.inr rfl

/-! ## Width safety -/

/-- C7: for both melodies the note count is unchanged by storage in the
`uint8_t` length member, every index below the length selects an entry of the
note table, the length is at most 128, and every such index as well as the
sentinel -1 is unchanged by conversion to the `int8_t` noteCounter member. -/
theorem melody_index_safe (m : melody)
    (hm : m = melodyNewMail ∨ m = melodyButtonPush) :
    m.notes.length % 2 ^ 8 = m.notes.length ∧
    m.length = m.notes.length ∧
    (∀ i : Nat, i < m.length → ∃ n, m.notes[i]? = some n) ∧
    m.length ≤ 128 ∧
    (∀ i : Nat, i < m.length → toInt8 (i : Int) = (i : Int)) ∧
    toInt8 (-1) = -1 := by
  have hlen : m.length = m.notes.length ∧ m.notes.length ≤ 27 := by
    rcases hm with rfl | rfl <;> decide
  obtain ⟨h1, h2⟩ := hlen
  refine ⟨?_, h1, ?_, by omega, ?_, by decide⟩
  · exact Nat.mod_eq_of_lt (by norm_num; omega)
  · intro i hi
    have hi2 : i < m.notes.length := by omega
    exact ⟨m.notes[i], List.getElem?_eq_getElem hi2⟩
  · intro i hi
    unfold toInt8
    omega

/-- Instance of C7 at the new-mail melody. -/
theorem melody_index_safe_witness :
    (melodyNewMail = melodyNewMail ∨ melodyNewMail = melodyButtonPush) ∧
    melodyNewMail.notes.length % 2 ^ 8 = melodyNewMail.notes.length ∧
    melodyNewMail.length = melodyNewMail.notes.length ∧
    (∀ i : Nat, i < melodyNewMail.length → ∃ n, melodyNewMail.notes[i]? = some n) ∧
    melodyNewMail.length ≤ 128 ∧
    (∀ i : Nat, i < melodyNewMail.length → toInt8 (i : Int) = (i : Int)) ∧
    toInt8 (-1) = -1 :=
  ⟨Or.inl rfl, melody_index_safe melodyNewMail (Or.inl rfl)⟩

/-- C8: the durations sum to 4200 for `melodyNewMail` and to 300 for
`melodyButtonPush`; for each melody the sum of the first k durations is below
2^16 for every k, so accumulating them in a `uint16_t` counter started at 0
gives the exact sum at every step and never wraps around. -/
theorem duration_sum_no_wrap :
    totalDuration melodyNewMail.notes = 4200 ∧
    totalDuration melodyButtonPush.notes = 300 ∧
    (∀ k : Nat, totalDuration (melodyNewMail.notes.take k) < 2 ^ 16) ∧
    (∀ k : Nat, totalDuration (melodyButtonPush.notes.take k) < 2 ^ 16) ∧
    (∀ k : Nat, accumulate16 0 (melodyNewMail.notes.take k) =
      totalDuration (melodyNewMail.notes.take k)) ∧
    (∀ k : Nat, accumulate16 0 (melodyButtonPush.notes.take k) =
      totalDuration (melodyButtonPush.notes.take k)) := by
  have hA : ∀ k : Nat, totalDuration (melodyNewMail.notes.take k) < 2 ^ 16 := fun k =>
    lt_of_le_of_lt (totalDuration_take_le _ k) (by rw [show melodyNewMail.notes = newMailNotes from rfl, totalDuration_newMail]; norm_num)
  have hB : ∀ k : Nat, totalDuration (melodyButtonPush.notes.take k) < 2 ^ 16 := fun k =>
    lt_of_le_of_lt (totalDuration_take_le _ k) (by rw [show melodyButtonPush.notes = buttonPushNotes from rfl, totalDuration_buttonPush]; norm_num)
  refine ⟨totalDuration_newMail, totalDuration_buttonPush, hA, hB, ?_, ?_⟩
  · intro k
    have h := accumulate16_eq (melodyNewMail.notes.take k) 0 (by simpa [UINT16_MOD] using hA k)
    simpa using h
  · intro k
    have h := accumulate16_eq (melodyButtonPush.notes.take k) 0 (by simpa [UINT16_MOD] using hB k)
    simpa using h

end SnailMail
